import Mathlib

/-!
Verification of the reading-statistics / leaderboard core of the
book-reading tracker web application.

The definitions below are a shallow embedding of the TypeScript route
handlers and helper functions of the repository:

* `progressPOST` embeds the progress-update handler
  (`src/app/api/leaderboard/route.ts`, `POST`), including the
  effective-page-total resolution, the percentage computation and the
  points awards.
* `calculateReadingStreak` embeds the dashboard streak calculator
  (`calculateReadingStreak`), including the dead duplicate branch of its
  day-walking loop.
* `leaderboardStreak`, `averageSummaryRating`, `mkEntry`, `leaderboardGET`
  embed the leaderboard ranker (`src/app/api/leaderboard/route.ts`, `GET`).
* `processMonthlyStats` embeds the monthly aggregator.
* `ratePatch` and `summariesPOST` embed the summary rating handler
  (`src/app/api/summaries/[id]/route.ts`, `PATCH`) and the summary
  creation handler (`POST`).

Machine conventions: JavaScript timestamps are modelled as integers
(milliseconds); `Math.floor(x / k)` on such values is integer floor
division, which for a positive literal divisor coincides with Lean's
Euclidean `/` on `ℤ`.  JavaScript `Date` values truncated with
`setHours(0,0,0,0)` are modelled as day numbers (`toDay`).  Percentages,
averages and ratings are exact rationals (`ℚ`); `Math.round` is Mathlib's
`round` (both round half toward positive infinity).  JSON fields that may
be absent are `Option`s, and the `x || y` idiom on numbers (where `0` is
falsy) is `jsOrNat`.
-/

/-- JavaScript `x || y` for an optional numeric field: `y` is used when the
field is absent or equal to the falsy value `0`. -/
def jsOrNat (x : Option Nat) (y : Nat) : Nat :=
  match x with
  | some v => if v = 0 then y else v
  | none => y

/-- Reading status enum of the Prisma schema. -/
inductive RStatus
  | NOT_STARTED
  | READING
  | PAUSED
  | COMPLETED
deriving DecidableEq, Repr

/-- Effective page total of the progress-update handler:
`const pages = totalPages || book.pages || 0`. -/
def effectivePages (totalPages bookPages : Option Nat) : Nat :=
  jsOrNat totalPages (jsOrNat bookPages 0)

/-- Progress percentage of the progress-update handler:
`pages > 0 ? Math.min((currentPage || 0) / pages * 100, 100) : 0`. -/
def progressPercentage (currentPage : Option Nat) (pages : Nat) : ℚ :=
  if 0 < pages then min ((currentPage.getD 0 : ℚ) / pages * 100) 100 else 0

/-- One row of the `readingProgress` table, as written by the upsert. -/
structure ProgressRec where
  status : RStatus
  currentPage : Nat
  totalPages : Nat
  progressPercentage : ℚ
  startedAt : Option ℤ
  completedAt : Option ℤ
deriving DecidableEq, Repr

/-- Progress-update handler (`POST` of the progress route): computes the
effective page total and percentage, upserts the `(user, book)` progress
row (`prior` is the existing row, if any), and returns the upserted row
together with the number of points awarded to the user by this request
(`100` for a `COMPLETED` status, `25` for `READING` at fifty percent or
more, `0` otherwise). -/
def progressPOST (now : ℤ) (prior : Option ProgressRec) (bookPages : Option Nat)
    (status : Option RStatus) (currentPage totalPages : Option Nat) :
    ProgressRec × Nat :=
  let pages := effectivePages totalPages bookPages
  let pct := progressPercentage currentPage pages
  let startedAt : Option ℤ :=
    if status = some .READING ∨ status = some .PAUSED ∨ status = some .COMPLETED
    then some now else none
  let completedAt : Option ℤ :=
    if status = some .COMPLETED then some now else none
  let row : ProgressRec :=
    match prior with
    | some p =>
        { status := status.getD p.status
          currentPage := currentPage.getD 0
          totalPages := pages
          progressPercentage := pct
          startedAt := startedAt <|> p.startedAt
          completedAt := completedAt <|> p.completedAt }
    | none =>
        { status := status.getD .NOT_STARTED
          currentPage := currentPage.getD 0
          totalPages := pages
          progressPercentage := pct
          startedAt := startedAt
          completedAt := completedAt }
  let award : Nat :=
    if status = some .COMPLETED then 100
    else if status = some .READING ∧ 50 ≤ pct then 25
    else 0
  (row, award)

/-- C1: for every progress-update request, if the effective page total is
positive then the stored `progressPercentage` equals
`min(100, 100·currentPage/effectivePages)`; if the effective page total is
`0` the stored percentage is `0`; and the stored percentage always lies in
`[0, 100]`. -/
theorem progressPercentage_correct (cp tp bp : Option Nat) :
    (0 < effectivePages tp bp →
      progressPercentage cp (effectivePages tp bp) =
        min 100 (100 * (cp.getD 0 : ℚ) / (effectivePages tp bp)))
    ∧ (effectivePages tp bp = 0 → progressPercentage cp (effectivePages tp bp) = 0)
    ∧ 0 ≤ progressPercentage cp (effectivePages tp bp)
    ∧ progressPercentage cp (effectivePages tp bp) ≤ 100 := by
  set n := effectivePages tp bp with hn
  refine ⟨fun hpos => ?_, fun hz => ?_, ?_, ?_⟩
  · rw [progressPercentage, if_pos hpos, min_comm]
    ring_nf
  · rw [progressPercentage, hz]
    simp
  · rw [progressPercentage]
    split_ifs with hpos
    · apply le_min
      · positivity
      · norm_num
    · exact le_refl 0
  · rw [progressPercentage]
    split_ifs with hpos
    · exact min_le_right _ _
    · norm_num

/-- Witness for C1 at concrete inputs: a 300-page book at page 150 stores
fifty percent, and a zero effective page total stores zero. -/
theorem progressPercentage_correct_witness :
    progressPercentage (some 150) (effectivePages none (some 300)) =
      min 100 (100 * ((some 150 : Option Nat).getD 0 : ℚ) /
        (effectivePages none (some 300)))
    ∧ progressPercentage (some 150) (effectivePages (some 0) none) = 0 :=
  ⟨(progressPercentage_correct (some 150) none (some 300)).1 (by decide),
   (progressPercentage_correct (some 150) (some 0) none).2.1 (by decide)⟩

/-- C7: the progress-update handler awards exactly `100` points whenever the
request's status is `COMPLETED` (regardless of the prior stored row, hence
also on repeated completions), exactly `25` points when the status is
`READING` and the computed percentage is at least `50`, and `0` points on
every other request; the award never depends on the prior stored row. -/
theorem progressPOST_points (now : ℤ) (prior : Option ProgressRec)
    (bp : Option Nat) (st : Option RStatus) (cp tp : Option Nat) :
    (st = some .COMPLETED → (progressPOST now prior bp st cp tp).2 = 100)
    ∧ (st = some .READING →
        50 ≤ progressPercentage cp (effectivePages tp bp) →
        (progressPOST now prior bp st cp tp).2 = 25)
    ∧ (st ≠ some .COMPLETED →
        ¬(st = some .READING ∧ 50 ≤ progressPercentage cp (effectivePages tp bp)) →
        (progressPOST now prior bp st cp tp).2 = 0)
    ∧ (∀ prior', (progressPOST now prior' bp st cp tp).2 =
        (progressPOST now prior bp st cp tp).2) := by
  refine ⟨fun hc => ?_, fun hr hp => ?_, fun hnc hnr => ?_, fun prior' => ?_⟩
  · simp only [progressPOST, hc]
    simp
  · have hnc : ¬(st = some RStatus.COMPLETED) := by
      rw [hr]; simp
    simp only [progressPOST]
    rw [if_neg hnc, if_pos ⟨hr, hp⟩]
  · simp only [progressPOST]
    rw [if_neg hnc, if_neg hnr]
  · cases prior' <;> cases prior <;> rfl

/-- Witness for C7 at concrete inputs: a `COMPLETED` request awards 100, a
`READING` request at page 150 of 300 awards 25, and a request with no
status awards 0. -/
theorem progressPOST_points_witness :
    (progressPOST 0 none none (some .COMPLETED) none none).2 = 100
    ∧ (progressPOST 0 none (some 300) (some .READING) (some 150) none).2 = 25
    ∧ (progressPOST 0 none none none none none).2 = 0 :=
  ⟨(progressPOST_points 0 none none (some .COMPLETED) none none).1 rfl,
   (progressPOST_points 0 none (some 300) (some .READING) (some 150) none).2.1 rfl
     (by norm_num [progressPercentage, effectivePages, jsOrNat]),
   (progressPOST_points 0 none none none none none).2.2.1 (by simp)
     (fun h => Option.noConfusion h.1)⟩

/-- Milliseconds per calendar day, as used by the JavaScript code
(`1000 * 60 * 60 * 24`). -/
def msPerDay : ℤ := 86400000

/-- Truncation of a millisecond timestamp to its calendar day number,
modelling `date.setHours(0, 0, 0, 0)` followed by day-granularity
comparisons (floor division by the day length). -/
def toDay (t : ℤ) : ℤ := t / msPerDay

/-- Descending order on day numbers, the comparator
`(a, b) => b - a` passed to `sort` by the streak calculator. -/
def dge (a b : ℤ) : Prop := b ≤ a

instance : DecidableRel dge := fun a b => inferInstanceAs (Decidable (b ≤ a))

instance : IsTotal ℤ dge := ⟨fun a b => le_total b a⟩

instance : IsTrans ℤ dge := ⟨fun _ _ _ hab hbc => le_trans hbc hab⟩

/-- Day-walking loop of `calculateReadingStreak`: walks the deduplicated,
descending list of activity days; a day equal to the cursor extends the
streak and moves the cursor one day back, anything else stops the walk.
The second branch repeats the first branch's comparison verbatim, exactly
as in the source (`else if (dateTime === currentDate.getTime())`), and is
therefore dead. -/
def streakLoop : List ℤ → ℤ → Nat
  | [], _ => 0
  | d :: rest, cur =>
      if d = cur then streakLoop rest (cur - 1) + 1
      else if d = cur then streakLoop rest (cur - 1) + 1
      else 0

/-- Dashboard streak calculator `calculateReadingStreak`: maps the user's
progress-update timestamps to calendar days, deduplicates, sorts
descending, and runs the day-walking loop starting at today. -/
def calculateReadingStreak (now : ℤ) (timestamps : List ℤ) : Nat :=
  if timestamps = [] then 0
  else streakLoop (((timestamps.map toDay).dedup).insertionSort dge) (toDay now)

/-- Modelled from the spec's words for claim C2 only (not from the code):
the consecutive-day count whose start day may be today or yesterday, used
to compare the implemented streak with the claimed one. -/
def specClaimStreakRun (days : List ℤ) : ℤ → Nat → Nat
  | _, 0 => 0
  | s, fuel + 1 => if s ∈ days then specClaimStreakRun days (s - 1) fuel + 1 else 0

/-- Modelled from the spec's words for claim C2 only (not from the code):
the streak claimed by the spec counts consecutive activity days backward
starting at today, or at yesterday when today has no activity. -/
def specClaimStreak (now : ℤ) (timestamps : List ℤ) : Nat :=
  let days := (timestamps.map toDay).dedup
  if toDay now ∈ days then specClaimStreakRun days (toDay now) (days.length + 1)
  else if toDay now - 1 ∈ days then specClaimStreakRun days (toDay now - 1) (days.length + 1)
  else 0

lemma streakLoop_le_length (l : List ℤ) (cur : ℤ) : streakLoop l cur ≤ l.length := by
  induction l generalizing cur with
  | nil => simp [streakLoop]
  | cons d rest ih =>
      simp only [streakLoop, List.length_cons]
      split_ifs with h
      · exact Nat.succ_le_succ (ih (cur - 1))
      · exact Nat.zero_le _

lemma streakLoop_charac (l : List ℤ) (cur : ℤ) (hs : l.Sorted dge) (hn : l.Nodup)
    (hb : ∀ d ∈ l, d ≤ cur) :
    (∀ k : Nat, k < streakLoop l cur → (cur - k) ∈ l)
      ∧ (cur - streakLoop l cur) ∉ l := by
  induction l generalizing cur with
  | nil =>
      refine ⟨fun k hk => absurd hk (by simp [streakLoop]), by simp⟩
  | cons d rest ih =>
      have hdc : d ≤ cur := hb d (List.mem_cons_self d rest)
      have hrest_le : ∀ x ∈ rest, x ≤ d := fun x hx => List.rel_of_sorted_cons hs x hx
      by_cases hd : d = cur
      · have hb' : ∀ x ∈ rest, x ≤ cur - 1 := by
          intro x hx
          have hxd : x ≤ d := hrest_le x hx
          have hxne : x ≠ d := by
            intro hcontra
            exact (List.nodup_cons.mp hn).1 (hcontra ▸ hx)
          omega
        have hs' : rest.Sorted dge := hs.of_cons
        have hn' : rest.Nodup := (List.nodup_cons.mp hn).2
        obtain ⟨ih1, ih2⟩ := ih (cur - 1) hs' hn' hb'
        have hloop : streakLoop (d :: rest) cur = streakLoop rest (cur - 1) + 1 := by
          simp [streakLoop, hd]
        refine ⟨fun k hk => ?_, ?_⟩
        · rw [hloop] at hk
          match k with
          | 0 => simpa using Or.inl hd.symm
          | j + 1 =>
              have hj : j < streakLoop rest (cur - 1) := by omega
              have : (cur - 1 - j) ∈ rest := ih1 j hj
              have harith : cur - (↑(j + 1) : ℤ) = cur - 1 - j := by
                push_cast
                ring
              rw [harith]
              exact List.mem_cons_of_mem d this
        · rw [hloop]
          have harith : cur - (↑(streakLoop rest (cur - 1) + 1) : ℤ)
              = cur - 1 - streakLoop rest (cur - 1) := by
            push_cast
            ring
          rw [harith]
          intro hmem
          rcases List.mem_cons.mp hmem with heq | hmem'
          · have : (0:ℤ) ≤ (streakLoop rest (cur - 1) : ℤ) := by positivity
            omega
          · exact ih2 hmem'
      · have hloop : streakLoop (d :: rest) cur = 0 := by
          simp [streakLoop, hd]
        rw [hloop]
        refine ⟨fun k hk => absurd hk (by omega), ?_⟩
        intro hmem
        simp only [Nat.cast_zero, sub_zero] at hmem
        rcases List.mem_cons.mp hmem with heq | hmem'
        · exact hd heq.symm
        · have h1 : cur ≤ d := hrest_le cur hmem'
          omega

lemma mem_streakList (ts : List ℤ) (x : ℤ) :
    x ∈ ((ts.map toDay).dedup).insertionSort dge ↔ x ∈ ts.map toDay := by
  rw [List.mem_insertionSort, List.mem_dedup]

/-- Counterexample to C2 as stated: with today being day 2 and the only
activity on day 1 (yesterday), the spec's streak (which may start at
yesterday) is 1, but `calculateReadingStreak` returns 0 because its loop
only ever starts counting at today. -/
theorem calculateReadingStreak_yesterday_counterexample :
    specClaimStreak 200000000 [100000000] = 1
      ∧ calculateReadingStreak 200000000 [100000000] = 0 := by
  constructor
  · decide
  · decide

/-- C2 amended: the streak calculator returns the number of consecutive
calendar days with at least one activity counted backward from today,
where the streak can only start at today (not at yesterday): the first
`streak` days counting back from today all have activity, the next one
does not, and in particular the result is 0 whenever today itself has no
activity (hence also when there is no activity at all, or when the most
recent activity day is before today); the only activity day being today
gives 1. -/
theorem calculateReadingStreak_amended (now : ℤ) (ts : List ℤ)
    (hb : ∀ t ∈ ts, toDay t ≤ toDay now) :
    (∀ k : Nat, k < calculateReadingStreak now ts →
        (toDay now - k) ∈ ts.map toDay)
    ∧ (toDay now - calculateReadingStreak now ts) ∉ ts.map toDay
    ∧ (toDay now ∉ ts.map toDay → calculateReadingStreak now ts = 0) := by
  by_cases hts : ts = []
  · subst hts
    refine ⟨fun k hk => absurd hk (by simp [calculateReadingStreak]), ?_, ?_⟩
    · simp [calculateReadingStreak]
    · intro _
      simp [calculateReadingStreak]
  · have hcalc : calculateReadingStreak now ts =
        streakLoop (((ts.map toDay).dedup).insertionSort dge) (toDay now) := by
      rw [calculateReadingStreak, if_neg hts]
    set l := ((ts.map toDay).dedup).insertionSort dge with hl
    have hs : l.Sorted dge := List.sorted_insertionSort dge _
    have hn : l.Nodup :=
      ((List.perm_insertionSort dge _).nodup_iff).mpr (List.nodup_dedup _)
    have hb' : ∀ d ∈ l, d ≤ toDay now := by
      intro d hd
      rw [hl, mem_streakList] at hd
      obtain ⟨t, ht, rfl⟩ := List.mem_map.mp hd
      exact hb t ht
    obtain ⟨h1, h2⟩ := streakLoop_charac l (toDay now) hs hn hb'
    refine ⟨fun k hk => ?_, ?_, fun hnotin => ?_⟩
    · rw [hcalc] at hk
      have := h1 k hk
      rwa [mem_streakList] at this
    · rw [hcalc]
      rw [← mem_streakList ts]
      exact h2
    · by_contra hne
      have hpos : 0 < calculateReadingStreak now ts := Nat.pos_of_ne_zero hne
      have hcontra := h1 0 (by rwa [← hcalc])
      rw [mem_streakList] at hcontra
      simp only [Nat.cast_zero, sub_zero] at hcontra
      exact hnotin hcontra

/-- Witness for the amended C2 at a concrete input: today is day 2 and
activity happened on days 2 and 1, so the streak is 2 and the
characterization holds there. -/
theorem calculateReadingStreak_amended_witness :
    (∀ k : Nat, k < calculateReadingStreak 200000000 [180000000, 100000000] →
        (toDay 200000000 - k) ∈ ([180000000, 100000000] : List ℤ).map toDay)
    ∧ (toDay 200000000 - calculateReadingStreak 200000000 [180000000, 100000000])
        ∉ ([180000000, 100000000] : List ℤ).map toDay
    ∧ (toDay 200000000 ∉ ([180000000, 100000000] : List ℤ).map toDay →
        calculateReadingStreak 200000000 [180000000, 100000000] = 0) :=
  calculateReadingStreak_amended 200000000 [180000000, 100000000] (by decide)

/-- Leaderboard ranker's simplified streak (`GET` of the leaderboard
route): sorts the user's progress rows by `updatedAt` descending; if the
floor of `(now - lastActivity) / msPerDay` is at most 1 the streak is the
number of progress rows capped at 30, otherwise 0. -/
def leaderboardStreak (now : ℤ) (updatedAts : List ℤ) : Nat :=
  match updatedAts.insertionSort dge with
  | [] => 0
  | last :: _ =>
      if (now - last) / msPerDay ≤ 1 then min updatedAts.length 30 else 0

lemma streakLoop_pos_head (l : List ℤ) (cur : ℤ) (h : 0 < streakLoop l cur) :
    ∃ rest, l = cur :: rest := by
  match l with
  | [] => simp [streakLoop] at h
  | d :: rest =>
      by_cases hd : d = cur
      · exact ⟨rest, by rw [hd]⟩
      · simp [streakLoop, hd] at h

lemma sorted_head_max (l : List ℤ) (h : ℤ) (t : List ℤ) (hs : l.Sorted dge)
    (heq : l = h :: t) (x : ℤ) (hx : x ∈ l) : x ≤ h := by
  subst heq
  rcases List.mem_cons.mp hx with rfl | hx'
  · exact le_refl x
  · exact List.rel_of_sorted_cons hs x hx'

/-- Counterexample to C3 as stated: a user with two progress rows, both
updated today (day 1), has a dashboard streak of 1 (one distinct activity
day), but the leaderboard reports a streak of 2, because it counts rows
rather than consecutive days. -/
theorem leaderboardStreak_counterexample :
    leaderboardStreak 170000000 [100000000, 90000000] = 2
      ∧ min (calculateReadingStreak 170000000 [100000000, 90000000]) 30 = 1 := by
  constructor
  · decide
  · decide

/-- C3 amended: the leaderboard's `readingStreak` does not equal the
dashboard streak capped at 30; it is only an upper bound for it: for every
user and every list of progress-update timestamps,
`min(calculateReadingStreak, 30) ≤ leaderboardStreak`, the leaderboard
value being the row count (capped at 30) whenever the most recent activity
is at most one day old. -/
theorem leaderboardStreak_ge_dashboard (now : ℤ) (rows : List ℤ) :
    min (calculateReadingStreak now rows) 30 ≤ leaderboardStreak now rows := by
  by_cases hS : calculateReadingStreak now rows = 0
  · rw [hS]
    simp
  · have hpos : 0 < calculateReadingStreak now rows := Nat.pos_of_ne_zero hS
    have hts : rows ≠ [] := by
      intro hcontra
      rw [hcontra] at hS
      exact hS (by rfl)
    have hcalc : calculateReadingStreak now rows =
        streakLoop (((rows.map toDay).dedup).insertionSort dge) (toDay now) := by
      rw [calculateReadingStreak, if_neg hts]
    set l := ((rows.map toDay).dedup).insertionSort dge with hl
    rw [hcalc] at hpos
    obtain ⟨drest, hdl⟩ := streakLoop_pos_head l (toDay now) hpos
    have htoday : toDay now ∈ l := by
      rw [hdl]
      exact List.mem_cons_self _ _
    have htoday' : toDay now ∈ rows.map toDay := by
      rwa [hl, mem_streakList] at htoday
    obtain ⟨t, htmem, htday⟩ := List.mem_map.mp htoday'
    rcases hsorted : rows.insertionSort dge with _ | ⟨last, tail⟩
    · exfalso
      have : rows.length = 0 := by
        have := (List.perm_insertionSort dge rows).length_eq
        rw [hsorted] at this
        simpa using this.symm
      exact hts (List.length_eq_zero.mp this)
    · have hsl : (rows.insertionSort dge).Sorted dge := List.sorted_insertionSort dge rows
      have htlast : t ≤ last := by
        apply sorted_head_max (rows.insertionSort dge) last tail hsl hsorted
        rw [List.mem_insertionSort]
        exact htmem
      have hlastmem : last ∈ rows := by
        rw [← List.mem_insertionSort (r := dge), hsorted]
        exact List.mem_cons_self _ _
      have hlastday_le : toDay last ≤ toDay now := by
        have hmem : toDay last ∈ l := by
          rw [hl, mem_streakList]
          exact List.mem_map_of_mem toDay hlastmem
        have := sorted_head_max l (toDay now) drest (List.sorted_insertionSort dge _) hdl
          (toDay last) hmem
        exact this
      have hlastday_ge : toDay now ≤ toDay last := by
        rw [← htday]
        simp only [toDay, msPerDay]
        omega
      have hdayeq : toDay last = toDay now := le_antisymm hlastday_le hlastday_ge
      have hcond : (now - last) / msPerDay ≤ 1 := by
        simp only [toDay, msPerDay] at hdayeq
        simp only [msPerDay]
        omega
      have hlb : leaderboardStreak now rows = min rows.length 30 := by
        rw [leaderboardStreak, hsorted]
        exact if_pos hcond
      rw [hlb]
      apply min_le_min _ (le_refl 30)
      rw [hcalc]
      calc streakLoop l (toDay now) ≤ l.length := streakLoop_le_length l (toDay now)
        _ = ((rows.map toDay).dedup).length := (List.perm_insertionSort dge _).length_eq
        _ ≤ (rows.map toDay).length := (List.dedup_sublist _).length_le
        _ = rows.length := List.length_map _ _

/-- One of a user's (window-filtered) progress rows as fetched by the
leaderboard query, with the included book page count. -/
structure ProgressRow where
  status : RStatus
  updatedAt : ℤ
  bookPages : Option Nat
deriving DecidableEq, Repr

/-- One of a user's (window-filtered) summaries as fetched by the
leaderboard query: only the nullable rating is selected. -/
structure SummaryRow where
  rating : Option Nat
deriving DecidableEq, Repr

/-- A user row as fetched by the leaderboard query, with the included
relation rows. -/
structure LBUser where
  id : Nat
  points : ℤ
  progress : List ProgressRow
  summaries : List SummaryRow
deriving DecidableEq, Repr

/-- Average summary rating of the leaderboard ranker: the sum of
`summary.rating` over all fetched summaries (a missing rating adds `0`,
as JavaScript `number + null` does) divided by the number of all fetched
summaries, or `0` when there are none; finally rounded to one decimal by
`Math.round(x * 10) / 10`. -/
def averageSummaryRating (ratings : List (Option Nat)) : ℚ :=
  if 0 < ratings.length then
    (round ((ratings.map (fun r => ((r.getD 0 : Nat) : ℚ))).sum / ratings.length * 10) : ℚ) / 10
  else 0

/-- Modelled from the spec's words for claim C4 only (not from the code):
the mean of the rating values taken only over the summaries that have a
rating, rounded to one decimal, `0` when there are no rated summaries. -/
def specAverageSummaryRating (ratings : List (Option Nat)) : ℚ :=
  let rated := ratings.filterMap id
  if 0 < rated.length then
    (round (((rated.sum : Nat) : ℚ) / rated.length * 10) : ℚ) / 10
  else 0

/-- One entry of the leaderboard response. -/
structure LBEntry where
  rank : Nat
  uid : Nat
  points : ℤ
  booksCompleted : Nat
  booksReading : Nat
  totalBooksStarted : Nat
  totalPagesRead : Nat
  summariesWritten : Nat
  averageSummaryRating : ℚ
  readingStreak : Nat
  completionRate : ℤ
deriving DecidableEq, Repr

/-- Per-user statistics block of the leaderboard ranker, mapping one
fetched user row at a given 1-based sort position to a response entry. -/
def mkEntry (now : ℤ) (rank : Nat) (u : LBUser) : LBEntry :=
  let completedBooks := (u.progress.filter (fun p => p.status = RStatus.COMPLETED)).length
  { rank := rank
    uid := u.id
    points := u.points
    booksCompleted := completedBooks
    booksReading := (u.progress.filter (fun p => p.status = RStatus.READING)).length
    totalBooksStarted := u.progress.length
    totalPagesRead :=
      ((u.progress.filter (fun p => p.status = RStatus.COMPLETED)).map
        (fun p => jsOrNat p.bookPages 0)).sum
    summariesWritten := u.summaries.length
    averageSummaryRating := averageSummaryRating (u.summaries.map SummaryRow.rating)
    readingStreak := leaderboardStreak now (u.progress.map ProgressRow.updatedAt)
    completionRate :=
      if 0 < u.progress.length then
        round (((completedBooks : ℚ) / u.progress.length) * 100)
      else 0 }

/-- Descending order on stored points, the `orderBy points desc` of the
leaderboard query (stable for ties). -/
def userGe (a b : LBUser) : Prop := b.points ≤ a.points

instance : DecidableRel userGe := fun a b => inferInstanceAs (Decidable (b.points ≤ a.points))

instance : IsTotal LBUser userGe := ⟨fun a b => le_total b.points a.points⟩

instance : IsTrans LBUser userGe := ⟨fun _ _ _ h1 h2 => le_trans h2 h1⟩

/-- Assignment of 1-based ranks in list order (`rank: index + 1`). -/
def rankify (now : ℤ) : Nat → List LBUser → List LBEntry
  | _, [] => []
  | i, u :: us => mkEntry now i u :: rankify now (i + 1) us

/-- Leaderboard ranker (`GET` of the leaderboard route): users sorted by
stored points descending, truncated to `limit`, each mapped to an entry
with rank equal to its 1-based position. -/
def leaderboardGET (now : ℤ) (users : List LBUser) (limit : Nat) : List LBEntry :=
  rankify now 1 ((users.insertionSort userGe).take limit)

lemma sum_getD_eq_sum_filterMap (rs : List (Option Nat)) :
    (rs.map (fun r => ((r.getD 0 : Nat) : ℚ))).sum = (((rs.filterMap id).sum : Nat) : ℚ) := by
  induction rs with
  | nil => simp
  | cons r rest ih =>
      cases r with
      | none => simpa using ih
      | some v =>
          have h2 : (some v :: rest).filterMap id = v :: rest.filterMap id := by
            simp [List.filterMap_cons]
          rw [List.map_cons, List.sum_cons, ih, h2, List.sum_cons]
          push_cast
          simp only [Option.getD_some]
          try ring

/-- Counterexample to C4 as stated: a user with two summaries, one rated 4
and one unrated, gets `averageSummaryRating = 2.0` from the leaderboard
(the null rating is summed as 0 and the division is by all summaries),
whereas the claimed mean over rated summaries only is `4.0`. -/
theorem averageSummaryRating_counterexample :
    (mkEntry 0 1 ⟨1, 0, [], [⟨some 4⟩, ⟨none⟩]⟩).averageSummaryRating = 2
      ∧ specAverageSummaryRating [some 4, none] = 4 := by
  constructor
  · show averageSummaryRating [some 4, none] = 2
    rw [averageSummaryRating]
    norm_num [round_eq]
  · have h : ([some 4, none] : List (Option Nat)).filterMap id = [4] := by
      simp [List.filterMap_cons]
    rw [specAverageSummaryRating]
    simp only [h]
    norm_num [round_eq]

/-- C4 amended: in every leaderboard entry, `averageSummaryRating` equals
the sum of the present ratings divided by the number of all of that user's
(window-filtered) summaries, rated or not, rounded to one decimal place,
and equals 0 only when the user has no summaries at all (an unrated
summary lowers the average instead of being excluded). -/
theorem averageSummaryRating_amended (now : ℤ) (i : Nat) (u : LBUser) :
    (mkEntry now i u).averageSummaryRating =
      if 0 < u.summaries.length then
        (round (((((u.summaries.map SummaryRow.rating).filterMap id).sum : Nat) : ℚ) /
          u.summaries.length * 10) : ℚ) / 10
      else 0 := by
  show averageSummaryRating (u.summaries.map SummaryRow.rating) = _
  rw [averageSummaryRating, sum_getD_eq_sum_filterMap, List.length_map]

lemma mkEntry_rank (now : ℤ) (i : Nat) (u : LBUser) : (mkEntry now i u).rank = i := rfl

lemma mkEntry_points (now : ℤ) (i : Nat) (u : LBUser) : (mkEntry now i u).points = u.points := rfl

lemma mkEntry_uid (now : ℤ) (i : Nat) (u : LBUser) : (mkEntry now i u).uid = u.id := rfl

lemma rankify_length (now : ℤ) (i : Nat) (l : List LBUser) :
    (rankify now i l).length = l.length := by
  induction l generalizing i with
  | nil => rfl
  | cons u us ih => simp [rankify, ih]

lemma rankify_map_rank (now : ℤ) (i : Nat) (l : List LBUser) :
    (rankify now i l).map LBEntry.rank = List.range' i l.length := by
  induction l generalizing i with
  | nil => rfl
  | cons u us ih =>
      have hr : List.range' i (us.length + 1) = i :: List.range' (i + 1) us.length := rfl
      simp only [rankify, List.map_cons, mkEntry_rank, List.length_cons, hr, ih]

lemma mem_rankify (now : ℤ) (i : Nat) (l : List LBUser) (e : LBEntry)
    (he : e ∈ rankify now i l) : ∃ j u, u ∈ l ∧ e = mkEntry now j u := by
  induction l generalizing i with
  | nil => simp [rankify] at he
  | cons u us ih =>
      rcases List.mem_cons.mp he with rfl | h'
      · exact ⟨i, u, List.mem_cons_self u us, rfl⟩
      · obtain ⟨j, u', hu', he'⟩ := ih (i + 1) h'
        exact ⟨j, u', List.mem_cons_of_mem u hu', he'⟩

lemma rankify_pairwise (now : ℤ) (i : Nat) (l : List LBUser)
    (h : l.Pairwise userGe) :
    (rankify now i l).Pairwise (fun a b : LBEntry => b.points ≤ a.points) := by
  induction l generalizing i with
  | nil => exact List.Pairwise.nil
  | cons u us ih =>
      rcases List.pairwise_cons.mp h with ⟨hhead, htail⟩
      refine List.pairwise_cons.mpr ⟨?_, ih (i + 1) htail⟩
      intro e he
      obtain ⟨j, u', hu', rfl⟩ := mem_rankify now (i + 1) us e he
      rw [mkEntry_points, mkEntry_points]
      exact hhead u' hu'

lemma rankify_filter_map_uid (now : ℤ) (p : ℤ) (i : Nat) (l : List LBUser) :
    ((rankify now i l).filter (fun e => e.points = p)).map LBEntry.uid =
      (l.filter (fun u => u.points = p)).map LBUser.id := by
  induction l generalizing i with
  | nil => rfl
  | cons u us ih =>
      by_cases hq : u.points = p
      · simp [rankify, List.filter_cons, mkEntry_points, mkEntry_uid, hq, ih]
      · simp [rankify, List.filter_cons, mkEntry_points, hq, ih]

lemma filter_orderedInsert_points (p : ℤ) (a : LBUser) (l : List LBUser) :
    (List.orderedInsert userGe a l).filter (fun u => u.points = p) =
      if a.points = p then a :: l.filter (fun u => u.points = p)
      else l.filter (fun u => u.points = p) := by
  induction l with
  | nil =>
      by_cases hq : a.points = p <;> simp [List.orderedInsert, List.filter_cons, hq]
  | cons b l ih =>
      simp only [List.orderedInsert]
      by_cases hab : userGe a b
      · rw [if_pos hab]
        by_cases hqa : a.points = p <;> simp [List.filter_cons, hqa]
      · rw [if_neg hab]
        have hne : a.points ≠ b.points := by
          intro he
          exact hab (le_of_eq he.symm)
        by_cases hqa : a.points = p
        · by_cases hqb : b.points = p
          · exact absurd (hqa.trans hqb.symm) hne
          · simp [List.filter_cons, hqa, hqb, ih]
        · by_cases hqb : b.points = p <;> simp [List.filter_cons, hqa, hqb, ih]

lemma insertionSort_filter_points (p : ℤ) (l : List LBUser) :
    (l.insertionSort userGe).filter (fun u => u.points = p) =
      l.filter (fun u => u.points = p) := by
  induction l with
  | nil => rfl
  | cons x xs ih =>
      simp only [List.insertionSort]
      rw [filter_orderedInsert_points]
      by_cases hq : x.points = p <;> simp [List.filter_cons, hq, ih]

/-- C8: in every leaderboard response the ranks are exactly the strictly
increasing sequence 1..N over the returned entries, the entries are
ordered by stored all-time points descending, the list has at most `limit`
entries, and entries with equal points appear in the stable input order of
the user list (distinct sequential ranks, no failure on ties). -/
theorem leaderboardGET_ranking (now : ℤ) (users : List LBUser) (limit : Nat) :
    ((leaderboardGET now users limit).map LBEntry.rank =
        List.range' 1 (leaderboardGET now users limit).length)
    ∧ List.Pairwise (fun a b : LBEntry => b.points ≤ a.points)
        (leaderboardGET now users limit)
    ∧ (leaderboardGET now users limit).length ≤ limit
    ∧ ∀ p : ℤ, List.Sublist
        (((leaderboardGET now users limit).filter (fun e => e.points = p)).map LBEntry.uid)
        ((users.filter (fun u => u.points = p)).map LBUser.id) := by
  refine ⟨?_, ?_, ?_, fun p => ?_⟩
  · rw [leaderboardGET, rankify_map_rank, rankify_length]
  · apply rankify_pairwise
    exact (List.sorted_insertionSort userGe users).sublist
      (List.take_sublist limit (users.insertionSort userGe))
  · rw [leaderboardGET, rankify_length, List.length_take]
    exact min_le_left _ _
  · rw [leaderboardGET, rankify_filter_map_uid]
    apply List.Sublist.map
    rw [← insertionSort_filter_points p users]
    exact (List.take_sublist limit (users.insertionSort userGe)).filter _

/-- A JavaScript `Date` at month granularity: an absolute calendar month
index (year times 12 plus 0-based month, so arithmetic on months is plain
integer arithmetic, as `new Date(y, m - i, 1)` normalizes overflowing
months), a 1-based day of month, and the milliseconds elapsed since that
day's midnight. -/
structure MTime where
  month : ℤ
  day : Nat
  ms : Nat
deriving DecidableEq, Repr

/-- Chronological order of `Date` values (`<=` on `getTime()`), as
lexicographic order on (month, day, time of day). -/
def MTime.le (a b : MTime) : Prop :=
  a.month < b.month ∨ (a.month = b.month ∧ (a.day < b.day ∨ (a.day = b.day ∧ a.ms ≤ b.ms)))

instance (a b : MTime) : Decidable (MTime.le a b) := by
  unfold MTime.le
  exact inferInstance

/-- Gregorian leap-year rule, as applied by the JavaScript `Date`. -/
def isLeap (y : ℤ) : Bool := (y % 4 == 0 && y % 100 != 0) || y % 400 == 0

/-- Number of days of 0-based month `m` in year `y`. -/
def daysInMonth (y m : ℤ) : Nat :=
  if m = 1 then (if isLeap y then 29 else 28)
  else if m = 3 ∨ m = 5 ∨ m = 8 ∨ m = 10 then 30
  else 31

/-- Last day of the calendar month with absolute index `idx`
(`new Date(year, month + 1, 0).getDate()`). -/
def lastDay (idx : ℤ) : Nat := daysInMonth (idx / 12) (idx % 12)

/-- First instant of the month: `new Date(year, month, 1)`. -/
def monthStart (idx : ℤ) : MTime := ⟨idx, 1, 0⟩

/-- Midnight of the last day of the month: `new Date(year, month + 1, 0)`.
This is the start of the month's last day, not the end of the month. -/
def monthEnd (idx : ℤ) : MTime := ⟨idx, lastDay idx, 0⟩

/-- One output bucket of the monthly aggregator. -/
structure MonthBucket where
  month : ℤ
  completed : Nat
  started : Nat
  total : Nat
deriving DecidableEq, Repr

/-- Monthly aggregator `processMonthlyStats`: for each of the 6 calendar
months ending with the current one (oldest first), counts the fetched
`(updatedAt, status)` pairs falling between the month's first instant and
the midnight of its last day, split into `COMPLETED` and `READING`. -/
def processMonthlyStats (nowMonth : ℤ) (stats : List (MTime × RStatus)) :
    List MonthBucket :=
  (List.range 6).map fun (j : Nat) =>
    let m : ℤ := nowMonth - 5 + (j : ℤ)
    let monthStats := stats.filter fun s =>
      MTime.le (monthStart m) s.1 ∧ MTime.le s.1 (monthEnd m)
    let completed := (monthStats.filter fun s => s.2 = RStatus.COMPLETED).length
    let started := (monthStats.filter fun s => s.2 = RStatus.READING).length
    ⟨m, completed, started, completed + started⟩

/-- The time window actually selected by the aggregator for month `m`:
the timestamp's month is `m` and its day-of-month precedes the last day,
or is the last day exactly at midnight.  Timestamps later on the last day
of the month fall outside every window. -/
def inMonthWindow (m : ℤ) (t : MTime) : Prop :=
  t.month = m ∧ 1 ≤ t.day ∧ (t.day < lastDay m ∨ (t.day = lastDay m ∧ t.ms = 0))

instance (m : ℤ) (t : MTime) : Decidable (inMonthWindow m t) := by
  unfold inMonthWindow
  exact inferInstance

lemma month_window_iff (m : ℤ) (t : MTime) :
    (MTime.le (monthStart m) t ∧ MTime.le t (monthEnd m)) ↔ inMonthWindow m t := by
  unfold MTime.le monthStart monthEnd inMonthWindow
  dsimp only
  constructor
  · intro h
    omega
  · intro h
    omega

lemma monthStats_filter_length (m : ℤ) (stats : List (MTime × RStatus)) (st : RStatus) :
    ((stats.filter fun s => MTime.le (monthStart m) s.1 ∧ MTime.le s.1 (monthEnd m)).filter
        (fun s => s.2 = st)).length =
      (stats.filter fun s => inMonthWindow m s.1 ∧ s.2 = st).length := by
  rw [List.filter_filter]
  apply congrArg List.length
  apply List.filter_congr
  intro s _
  have h := month_window_iff m s.1
  by_cases hw : MTime.le (monthStart m) s.1 ∧ MTime.le s.1 (monthEnd m)
  · have hw' : inMonthWindow m s.1 := h.mp hw
    by_cases hst : s.2 = st <;> simp [hw.1, hw.2, hw', hst]
  · have hw' : ¬inMonthWindow m s.1 := fun hc => hw (h.mpr hc)
    have h1 : ¬MTime.le (monthStart m) s.1 ∨ ¬MTime.le s.1 (monthEnd m) := by tauto
    rcases h1 with h1 | h1 <;> simp [h1, hw']

/-- Counterexample to C6 as stated: with the current month having index 0,
a single `COMPLETED` entry timestamped on the last day of that month just
after midnight lies in the current calendar month, yet every one of the 6
buckets (including the current month's, the last one) counts 0 completed,
because the aggregator's window ends at the midnight of the month's last
day. -/
theorem processMonthlyStats_counterexample :
    ((processMonthlyStats 0 [(⟨0, 31, 1⟩, RStatus.COMPLETED)]).map MonthBucket.completed
        = [0, 0, 0, 0, 0, 0])
    ∧ (⟨0, 31, 1⟩ : MTime).month = 0 - 5 + ((5 : Nat) : ℤ)
    ∧ 1 ≤ (⟨0, 31, 1⟩ : MTime).day
    ∧ (⟨0, 31, 1⟩ : MTime).day ≤ lastDay 0 := by
  refine ⟨?_, by decide, by decide, by decide⟩
  decide

/-- C6 amended: the monthly aggregator always returns exactly 6 buckets,
oldest first, for the 6 calendar months ending with the current one; each
bucket's `completed` (resp. `started`) count is the number of entries with
status `COMPLETED` (resp. `READING`) whose timestamp lies in the month's
window from its first instant up to the midnight of its last day —
entries later on the last day of a month are counted nowhere — and
`total = completed + started`, with `PAUSED` and `NOT_STARTED` entries
contributing to no count; on empty input all buckets are zero. -/
theorem processMonthlyStats_amended (now : ℤ) (stats : List (MTime × RStatus)) :
    (processMonthlyStats now stats).length = 6
    ∧ processMonthlyStats now stats =
        (List.range 6).map (fun (j : Nat) =>
          ⟨now - 5 + (j : ℤ),
           (stats.filter fun s =>
             inMonthWindow (now - 5 + (j : ℤ)) s.1 ∧ s.2 = RStatus.COMPLETED).length,
           (stats.filter fun s =>
             inMonthWindow (now - 5 + (j : ℤ)) s.1 ∧ s.2 = RStatus.READING).length,
           (stats.filter fun s =>
             inMonthWindow (now - 5 + (j : ℤ)) s.1 ∧ s.2 = RStatus.COMPLETED).length +
           (stats.filter fun s =>
             inMonthWindow (now - 5 + (j : ℤ)) s.1 ∧ s.2 = RStatus.READING).length⟩)
    ∧ (∀ b ∈ processMonthlyStats now [], b.completed = 0 ∧ b.started = 0 ∧ b.total = 0) := by
  refine ⟨by simp [processMonthlyStats], ?_, ?_⟩
  · rw [processMonthlyStats]
    apply List.map_congr_left
    intro j _
    dsimp only
    rw [monthStats_filter_length, monthStats_filter_length]
  · intro b hb
    rw [processMonthlyStats] at hb
    simp only [List.filter_nil, List.length_nil, List.mem_map] at hb
    obtain ⟨j, hj, rfl⟩ := hb
    exact ⟨rfl, rfl, rfl⟩

/-- User roles of the application. -/
inductive Role
  | STUDENT
  | TEACHER
  | ADMIN
deriving DecidableEq, Repr

/-- A summary row: author, book, content and the nullable teacher rating. -/
structure SummaryRec where
  id : Nat
  authorId : Nat
  bookId : Nat
  content : String
  rating : Option ℚ
deriving DecidableEq, Repr

/-- A comment row as created by the rating handler. -/
structure CommentRec where
  content : String
  authorId : Nat
  summaryId : Nat
deriving DecidableEq, Repr

/-- The slice of the database touched by the summaries route: book ids,
summary rows, comment rows, and each user's points counter. -/
structure AppDB where
  books : List Nat
  summaries : List SummaryRec
  comments : List CommentRec
  points : Nat → ℤ

/-- Whitespace characters stripped by JavaScript `trim` (the common ones). -/
def isWs (c : Char) : Bool := c == ' ' || c == '\t' || c == '\n' || c == '\r'

/-- JavaScript `String.prototype.trim`: strips whitespace from both ends. -/
def jsTrim (s : String) : String :=
  ⟨((s.data.dropWhile isWs).reverse.dropWhile isWs).reverse⟩

/-- Summary rating handler (`PATCH` of the summary route): requires an
elevated role, validates the rating with
`typeof rating !== "number" || rating < 1 || rating > 5`, looks the
summary up, overwrites its rating unconditionally, creates a
teacher-feedback comment when a non-blank feedback text is supplied, and
increments the summary author's points by `Math.round(rating * 10)`.
Returns the HTTP status and the resulting database state. -/
def ratePatch (db : AppDB) (role : Role) (actorId sid : Nat) (rating : Option ℚ)
    (feedback : Option String) : Nat × AppDB :=
  if role ≠ Role.TEACHER ∧ role ≠ Role.ADMIN then (403, db)
  else
    match rating with
    | none => (400, db)
    | some x =>
        if x < 1 ∨ 5 < x then (400, db)
        else
          match db.summaries.find? (fun t => t.id = sid) with
          | none => (404, db)
          | some s =>
              let db1 : AppDB := { db with
                summaries := db.summaries.map
                  (fun t => if t.id = sid then { t with rating := some x } else t) }
              let db2 : AppDB :=
                match feedback with
                | some f =>
                    if f ≠ "" ∧ jsTrim f ≠ "" then
                      { db1 with comments :=
                          db1.comments ++ [⟨"Teacher Feedback: " ++ f, actorId, sid⟩] }
                    else db1
                | none => db1
              let db3 : AppDB := { db2 with
                points := fun u =>
                  if u = s.authorId then db2.points u + round (x * 10) else db2.points u }
              (200, db3)

/-- Summary creation handler (`POST` of the summaries route): rejects a
missing content or book id, a book id not in the catalog, and a duplicate
summary by the same author for the same book; otherwise creates the
summary and increments the author's points by 50. -/
def summariesPOST (db : AppDB) (authorId : Nat) (bookId : Option Nat)
    (content : String) (newId : Nat) : Nat × AppDB :=
  if content = "" ∨ bookId = none then (400, db)
  else
    match bookId with
    | none => (400, db)
    | some b =>
        if b ∉ db.books then (404, db)
        else if db.summaries.any (fun s => s.authorId = authorId ∧ s.bookId = b) then
          (409, db)
        else
          let db1 : AppDB := { db with
            summaries := db.summaries ++ [⟨newId, authorId, b, content, none⟩] }
          let db2 : AppDB := { db1 with
            points := fun u => if u = authorId then db1.points u + 50 else db1.points u }
          (201, db2)

/-- Concrete database for the C5 results: one summary with id 1 authored
by user 7 on book 3. -/
def rateDB : AppDB := ⟨[], [⟨1, 7, 3, "s", none⟩], [], fun _ => 0⟩

/-- Counterexample to C5 as stated: the validation accepts the
non-integer rating 5/2 (status 200, not 400), because the handler only
checks `typeof rating !== "number" || rating < 1 || rating > 5` and never
checks integrality. -/
theorem ratePatch_noninteger_counterexample :
    (ratePatch rateDB Role.TEACHER 9 1 (some (5 / 2)) none).1 = 200
    ∧ ¬∃ n : ℤ, ((5 : ℚ) / 2) = (n : ℚ) := by
  constructor
  · rw [ratePatch]
    rw [if_neg (by simp)]
    dsimp only
    rw [if_neg (by norm_num)]
    rw [show rateDB.summaries.find? (fun t => t.id = 1) = some ⟨1, 7, 3, "s", none⟩ from rfl]
  · rintro ⟨n, hn⟩
    have h5 : (5 : ℚ) = 2 * (n : ℚ) := by
      field_simp at hn
      linarith
    have h6 : (5 : ℤ) = 2 * n := by exact_mod_cast h5
    omega

/-- C5 amended: before any write, the rating handler rejects with a 400
validation error every rating that is not a number or lies outside
`[1, 5]`, and it accepts every number in `[1, 5]` — the boundary values
1 and 5 in particular, but also non-integer values, which are not
rejected. -/
theorem ratePatch_validation (db : AppDB) (role : Role) (actor sid : Nat)
    (rating : Option ℚ) (feedback : Option String)
    (hrole : role = Role.TEACHER ∨ role = Role.ADMIN) :
    (rating = none → ratePatch db role actor sid rating feedback = (400, db))
    ∧ (∀ x : ℚ, rating = some x → (x < 1 ∨ 5 < x) →
        ratePatch db role actor sid rating feedback = (400, db))
    ∧ (∀ x : ℚ, rating = some x → 1 ≤ x → x ≤ 5 →
        ∀ s, db.summaries.find? (fun t => t.id = sid) = some s →
        (ratePatch db role actor sid rating feedback).1 = 200) := by
  have hnrole : ¬(role ≠ Role.TEACHER ∧ role ≠ Role.ADMIN) := by
    rcases hrole with rfl | rfl <;> simp
  refine ⟨fun hnone => ?_, fun x hx hout => ?_, fun x hx h1 h5 s hfind => ?_⟩
  · subst hnone
    rw [ratePatch, if_neg hnrole]
  · subst hx
    rw [ratePatch, if_neg hnrole]
    dsimp only
    rw [if_pos hout]
  · subst hx
    have hin : ¬(x < 1 ∨ 5 < x) := by
      push_neg
      exact ⟨h1, h5⟩
    rw [ratePatch, if_neg hnrole]
    dsimp only
    rw [if_neg hin, hfind]

/-- Witness for the amended C5 at concrete inputs: a missing rating and
the out-of-range rating 6 are rejected with 400 and no state change, while
the boundary rating 1 is accepted with 200. -/
theorem ratePatch_validation_witness :
    (ratePatch rateDB Role.TEACHER 9 1 none none = (400, rateDB))
    ∧ (ratePatch rateDB Role.TEACHER 9 1 (some 6) none = (400, rateDB))
    ∧ (ratePatch rateDB Role.TEACHER 9 1 (some 1) none).1 = 200 :=
  ⟨(ratePatch_validation rateDB Role.TEACHER 9 1 none none (Or.inl rfl)).1 rfl,
   (ratePatch_validation rateDB Role.TEACHER 9 1 (some 6) none (Or.inl rfl)).2.1 6 rfl
     (by norm_num),
   (ratePatch_validation rateDB Role.TEACHER 9 1 (some 1) none (Or.inl rfl)).2.2 1 rfl
     (by norm_num) (by norm_num) ⟨1, 7, 3, "s", none⟩ rfl⟩

/-- C9: every successful rating call with an integer rating `r` in
`[1, 5]` and a feedback text that is non-empty (non-blank after trim) on
an existing summary sets that summary's rating to `r`, appends a comment
whose content is exactly the string `Teacher Feedback: ` followed by the
feedback text, and increases the summary author's points by exactly
`r * 10`; nothing conditions this on the summary being previously
unrated, so it happens on every such call. -/
theorem ratePatch_success (db : AppDB) (role : Role) (actor sid : Nat) (r : Nat)
    (f : String) (s : SummaryRec)
    (hrole : role = Role.TEACHER ∨ role = Role.ADMIN)
    (hr1 : 1 ≤ r) (hr5 : r ≤ 5)
    (hfind : db.summaries.find? (fun t => t.id = sid) = some s)
    (hf : jsTrim f ≠ "") :
    (ratePatch db role actor sid (some (r : ℚ)) (some f)).1 = 200
    ∧ (ratePatch db role actor sid (some (r : ℚ)) (some f)).2.comments =
        db.comments ++ [⟨"Teacher Feedback: " ++ f, actor, sid⟩]
    ∧ (ratePatch db role actor sid (some (r : ℚ)) (some f)).2.points s.authorId =
        db.points s.authorId + 10 * r
    ∧ (∀ t ∈ (ratePatch db role actor sid (some (r : ℚ)) (some f)).2.summaries,
        t.id = sid → t.rating = some (r : ℚ)) := by
  have hnrole : ¬(role ≠ Role.TEACHER ∧ role ≠ Role.ADMIN) := by
    rcases hrole with rfl | rfl <;> simp
  have hrange : ¬((r : ℚ) < 1 ∨ 5 < (r : ℚ)) := by
    push_neg
    constructor
    · exact_mod_cast hr1
    · exact_mod_cast hr5
  have hfne : f ≠ "" := by
    intro hcontra
    apply hf
    rw [hcontra]
    rfl
  have hred : ratePatch db role actor sid (some (r : ℚ)) (some f) =
      (200, { db with
        summaries := db.summaries.map
          (fun t => if t.id = sid then { t with rating := some (r : ℚ) } else t)
        comments := db.comments ++ [⟨"Teacher Feedback: " ++ f, actor, sid⟩]
        points := fun u =>
          if u = s.authorId then db.points u + round ((r : ℚ) * 10) else db.points u }) := by
    rw [ratePatch, if_neg hnrole]
    dsimp only
    rw [if_neg hrange, hfind]
    dsimp only
    rw [if_pos ⟨hfne, hf⟩]
  refine ⟨by rw [hred], by rw [hred], ?_, ?_⟩
  · rw [hred]
    dsimp only
    rw [if_pos rfl]
    have hcast : ((r : ℚ) * 10) = ((10 * r : Nat) : ℚ) := by
      push_cast
      ring
    rw [hcast, round_natCast]
    push_cast
    ring
  · rw [hred]
    intro t ht hid
    dsimp only at ht
    obtain ⟨t0, ht0, rfl⟩ := List.mem_map.mp ht
    by_cases h0 : t0.id = sid
    · rw [if_pos h0]
    · rw [if_neg h0] at hid
      exact absurd hid h0

/-- Concrete database for the C9 witness: one summary with id 1 authored
by user 7 on book 3. -/
def rate9DB : AppDB := ⟨[], [⟨1, 7, 3, "s", none⟩], [], fun _ => 0⟩

/-- Witness for C9 at concrete inputs: rating 3 with feedback text
`Good analysis` on summary 1 returns 200, appends the teacher-feedback
comment, awards 30 points to author 7, and stores rating 3. -/
theorem ratePatch_success_witness :
    (ratePatch rate9DB Role.TEACHER 9 1 (some ((3 : Nat) : ℚ)) (some "Good analysis")).1 = 200
    ∧ (ratePatch rate9DB Role.TEACHER 9 1 (some ((3 : Nat) : ℚ)) (some "Good analysis")).2.comments =
        rate9DB.comments ++ [⟨"Teacher Feedback: " ++ "Good analysis", 9, 1⟩]
    ∧ (ratePatch rate9DB Role.TEACHER 9 1 (some ((3 : Nat) : ℚ)) (some "Good analysis")).2.points
        (⟨1, 7, 3, "s", none⟩ : SummaryRec).authorId =
        rate9DB.points (⟨1, 7, 3, "s", none⟩ : SummaryRec).authorId + 10 * 3
    ∧ (∀ t ∈ (ratePatch rate9DB Role.TEACHER 9 1 (some ((3 : Nat) : ℚ))
          (some "Good analysis")).2.summaries,
        t.id = 1 → t.rating = some ((3 : Nat) : ℚ)) :=
  ratePatch_success rate9DB Role.TEACHER 9 1 3 "Good analysis" ⟨1, 7, 3, "s", none⟩
    (Or.inl rfl) (by decide) (by decide) rfl (by decide)

/-- C10: every successful summary creation (non-empty content, existing
book, no previous summary by that author for that book) returns 201,
stores the new summary, and increases the author's points by exactly 50 —
a points award absent from the spec's points model. -/
theorem summariesPOST_points (db : AppDB) (author : Nat) (b : Nat) (content : String)
    (newId : Nat) (hc : content ≠ "") (hb : b ∈ db.books)
    (hdup : db.summaries.any (fun s => s.authorId = author ∧ s.bookId = b) = false) :
    (summariesPOST db author (some b) content newId).1 = 201
    ∧ (summariesPOST db author (some b) content newId).2.points author =
        db.points author + 50
    ∧ (summariesPOST db author (some b) content newId).2.summaries =
        db.summaries ++ [⟨newId, author, b, content, none⟩] := by
  have hcond : ¬(content = "" ∨ (some b : Option Nat) = none) := by
    simp [hc]
  have hred : summariesPOST db author (some b) content newId =
      (201, { db with
        summaries := db.summaries ++ [⟨newId, author, b, content, none⟩]
        points := fun u => if u = author then db.points u + 50 else db.points u }) := by
    rw [summariesPOST, if_neg hcond]
    dsimp only
    rw [if_neg (by simpa using hb), if_neg (by rw [hdup]; exact Bool.false_ne_true)]
  refine ⟨by rw [hred], ?_, by rw [hred]⟩
  rw [hred]
  dsimp only
  rw [if_pos rfl]

/-- Concrete database for the C10 witness: book 3 exists and there are no
summaries yet. -/
def createDB : AppDB := ⟨[3], [], [], fun _ => 0⟩

/-- Witness for C10 at concrete inputs: user 7 writes the first summary
for book 3 and gains 50 points. -/
theorem summariesPOST_points_witness :
    (summariesPOST createDB 7 (some 3) "My review" 1).1 = 201
    ∧ (summariesPOST createDB 7 (some 3) "My review" 1).2.points 7 =
        createDB.points 7 + 50
    ∧ (summariesPOST createDB 7 (some 3) "My review" 1).2.summaries =
        createDB.summaries ++ [⟨1, 7, 3, "My review", none⟩] :=
  summariesPOST_points createDB 7 3 "My review" 1 (by decide) (by decide) rfl

/-- Witness for the amended C6 at a concrete input: on empty input the
oldest bucket (month index -5 when the current month has index 0) is the
zero bucket. -/
theorem processMonthlyStats_amended_witness :
    (⟨-5, 0, 0, 0⟩ : MonthBucket).completed = 0
    ∧ (⟨-5, 0, 0, 0⟩ : MonthBucket).started = 0
    ∧ (⟨-5, 0, 0, 0⟩ : MonthBucket).total = 0 :=
  (processMonthlyStats_amended 0 []).2.2 ⟨-5, 0, 0, 0⟩ (by decide)
